import Mathlib

/-!
Verification of the hexy hexdump engine (howerj/hexy, src/hexy.h).

This file gives a shallow embedding of the core of `hexy.h`:
the numeral converter (`hexy_unum_to_string`,
`hexy_unsigned_integer_logarithm`), the in-place reversal helper
(`hexy_reverse`), the byte-stream abstraction (`hexy_io_t`,
`hexy_get`, `hexy_put`, the in-memory buffer binding), configuration
defaulting and validation (`hexy_config_default`, `hexy_validate`),
and the dump driver (`hexy`) with its line formatter.

Modelling conventions:
- Machine integers are `Nat`/`Int`; the 64-bit address counter is a
  `Nat` reduced mod `2^64` exactly where the C `uint64_t` arithmetic
  wraps.
- Bytes are `Nat` values in 0..255; the formatted output is a
  `List Char` accumulated by an always-succeeding sink (the dump
  claims concern a non-failing output sink; stream errors are modelled
  separately on `hexy_io_t`).
- Loops whose C termination depends on data are written with an
  explicit fuel argument that is chosen strictly larger than the
  number of iterations the C loop performs, so the out-of-fuel case is
  unreachable; this keeps every definition structurally recursive and
  kernel-computable.
- The C error codes are `-__LINE__` values; only their sign is ever
  observed, so errors are modelled as an inductive result type (for
  the driver) or the constant `HEXY_ELINE` (for the streams).
-/

/-- The C `HEXY_ELINE` macro expands to `-__LINE__`; callers only ever
test its sign, so it is modelled by a fixed negative value. -/
def HEXY_ELINE : Int := -1

/-- Default separator between the address and the bytes (`HEXY_SEP_ADR`). -/
def HEXY_SEP_ADR : String := ":\t"

/-- Default end-of-line separator (`HEXY_SEP_EOL`). -/
def HEXY_SEP_EOL : String := "\n"

/-- Default separator before the character view (`HEXY_SEP_CH1`). -/
def HEXY_SEP_CH1 : String := "  |"

/-- Default separator after the character view (`HEXY_SEP_CH2`). -/
def HEXY_SEP_CH2 : String := "|"

/-- Default separator between bytes (`HEXY_SEP_BYT`). -/
def HEXY_SEP_BYT : String := " "

/-- `HEXY_NON_GRAPHIC_REPLACEMENT_CHAR`. -/
def HEXY_NON_GRAPHIC_REPLACEMENT_CHAR : Char := '.'

/-- `HEXY_MAX_NCOLS`. -/
def HEXY_MAX_NCOLS : Int := 32

/-- `HEXY_MAX_GROUP`. -/
def HEXY_MAX_GROUP : Int := 8

/-- Size of one 64-bit wraparound, for the `uint64_t` address counter. -/
def HEXY_U64 : Nat := 2 ^ 64

/-- `hexy_is_valid_base`: bases 2..36 are valid.  The C argument type is
`hexy_unum_t` (unsigned), modelled as `Nat`. -/
def hexy_is_valid_base (base : Nat) : Bool :=
  2 ≤ base && base ≤ 36

/-- `hexy_isgraph`: printable ASCII strictly between 32 and 127. -/
def hexy_isgraph (ch : Nat) : Bool :=
  32 < ch && ch < 127

/-- `hexy_islower`. -/
def hexy_islower (ch : Nat) : Bool :=
  97 ≤ ch && ch ≤ 122

/-- `hexy_toupper`: xor with 0x20 on lowercase letters. -/
def hexy_toupper (ch : Nat) : Nat :=
  if hexy_islower ch then ch ^^^ 0x20 else ch

/-- Ascending index list `[0, 1, ..., n-1]`, written with structural
recursion so that it reduces definitionally (used for the C
`for (i = 0; i < n; i++)` loops; equal to `List.range n`). -/
def hexy_iota_go : Nat → Nat → List Nat
  | 0, _ => []
  | k + 1, i => i :: hexy_iota_go k (i + 1)

/-- See `hexy_iota_go`. -/
def hexy_iota (n : Nat) : List Nat :=
  hexy_iota_go n 0

/-- `hexy_swap`-step of `hexy_reverse`: exchange the elements at
positions `i` and `j` (no-op when either index is out of range, which
never happens in the C loop). -/
def hexy_swap {α : Type} (l : List α) (i j : Nat) : List α :=
  match l.get? i, l.get? j with
  | some a, some b => (l.set i b).set j a
  | _, _ => l

/-- `hexy_reverse`: the C routine swaps `r[i]` and `r[length-1-i]` for
every `i < length/2`, reversing the array in place. -/
def hexy_reverse {α : Type} (r : List α) : List α :=
  (hexy_iota (r.length / 2)).foldl
    (fun acc i => hexy_swap acc i (r.length - 1 - i)) r

/-- The digit alphabet used by `hexy_unum_to_string`. -/
def hexy_string_digits : List Char :=
  "0123456789abcdefghijklmnopqrstuvwxyz".toList

/-- One digit character for the value `d` (0..35), optionally upcased,
as produced inside the conversion loop of `hexy_unum_to_string`. -/
def hexy_digit_char (upper : Bool) (d : Nat) : Char :=
  let ch := hexy_string_digits.getD d '0'
  if upper then Char.ofNat (hexy_toupper ch.toNat) else ch

/-- The do-while loop of `hexy_unum_to_string`: emit digits of `dv`
least-significant first.  `fuel` strictly exceeds the number of
divisions performed (the caller passes `dv + 1`), so the `0` case is
unreachable. -/
def hexy_digits_loop (base : Nat) (upper : Bool) : Nat → Nat → List Char
  | 0, _ => []
  | fuel + 1, dv =>
    let c := hexy_digit_char upper (dv % base)
    if dv / base = 0 then [c]
    else c :: hexy_digits_loop base upper fuel (dv / base)

/-- `hexy_unum_to_string`: render `inum` in `base` (2..36) into a digit
string, most-significant digit first (the C writes least-significant
first and then calls `hexy_reverse` on the buffer).  Returns `none`
when the base is invalid (the C returns `HEXY_ELINE`). -/
def hexy_unum_to_string (inum base : Nat) (upper : Bool) : Option (List Char) :=
  if hexy_is_valid_base base then
    some (hexy_reverse (hexy_digits_loop base upper (inum + 1) inum))
  else none

/-- The do-while loop of `hexy_unsigned_integer_logarithm`; `fuel`
strictly exceeds the number of divisions (the caller passes `n + 1`). -/
def hexy_ilog_loop (base : Nat) : Nat → Nat → Nat
  | 0, _ => 1
  | fuel + 1, n =>
    if n / base = 0 then 1
    else 1 + hexy_ilog_loop base fuel (n / base)

/-- `hexy_unsigned_integer_logarithm`: number of digits of `n` in
`base` (`n = 0` gives 1).  The C loops forever for `base ≤ 1`; the
engine only calls it with validated bases. -/
def hexy_unsigned_integer_logarithm (n base : Nat) : Nat :=
  hexy_ilog_loop base (n + 1) n

/-- `hexy_print_number` on an always-succeeding sink: `char_count`
copies of `char_to_repeat` (none when negative, matching the C `for`
loop), around the digit string.  `none` models the `HEXY_ELINE` return
when the conversion fails.  (In the C, padding written before a failed
conversion stays in the sink; no claim observes that prefix.) -/
def hexy_print_number (u base : Nat) (char_count : Int) (char_to_repeat : Char)
    (left_align upper : Bool) : Option (List Char) :=
  match hexy_unum_to_string u base upper with
  | none => none
  | some digs =>
    let pad := List.replicate char_count.toNat char_to_repeat
    some (if left_align then pad ++ digs else digs ++ pad)

/-- `hexy_aligned_print_number`: pad on the left with
`min (digitWidth maxv - digitWidth u) (max 0 leading_zeros)` copies of
`leading_char` (the count is an `int` and can be negative, in which
case nothing is padded), then the digits. -/
def hexy_aligned_print_number (u base maxv : Nat) (leading_zeros : Int)
    (leading_char : Char) (upper : Bool) : Option (List Char) :=
  let mint : Int := (hexy_unsigned_integer_logarithm maxv base : Int) -
                    (hexy_unsigned_integer_logarithm u base : Int)
  let lz0 : Int := max 0 leading_zeros
  let lz : Int := min mint lz0
  hexy_print_number u base lz leading_char true upper

-- Sanity: the converter on a few concrete values.
example : hexy_unum_to_string 0 16 false = some ['0'] := by decide
example : hexy_unum_to_string 255 16 false = some ['f', 'f'] := by decide
example : hexy_unum_to_string 255 16 true = some ['F', 'F'] := by decide
example : hexy_unum_to_string 255 2 false =
    some ['1', '1', '1', '1', '1', '1', '1', '1'] := by decide
example : hexy_unsigned_integer_logarithm 255 16 = 2 := by decide
example : hexy_unsigned_integer_logarithm 0 16 = 1 := by decide
example : hexy_unsigned_integer_logarithm 65535 16 = 4 := by decide
example : hexy_aligned_print_number 0 16 65535 4 ' ' false =
    some [' ', ' ', ' ', '0'] := by decide
example : hexy_aligned_print_number 10 16 255 2 '0' false =
    some ['0', 'a'] := by decide

/-! ## Byte-stream abstraction (`hexy_io_t`, `hexy_get`, `hexy_put`) -/

/-- `hexy_buffer_t`: a fixed in-memory buffer with a cursor (`used`)
and an explicit capacity (`length`). -/
structure hexy_buffer_t where
  b : List Nat
  used : Nat
  length : Nat
deriving DecidableEq

/-- `hexy_buffer_get`: pull one byte from a buffer; fails (negative)
past the end. -/
def hexy_buffer_get (bu : hexy_buffer_t) : hexy_buffer_t × Int :=
  if bu.length ≤ bu.used then (bu, HEXY_ELINE)
  else ({ bu with used := bu.used + 1 }, ((bu.b.getD bu.used 0 : Nat) : Int))

/-- `hexy_buffer_put`: push one byte into a buffer; fails (negative) at
capacity.  The stored value is the `uint8_t` truncation of `ch`. -/
def hexy_buffer_put (bu : hexy_buffer_t) (ch : Int) : hexy_buffer_t × Int :=
  if bu.length ≤ bu.used then (bu, HEXY_ELINE)
  else
    let v := (ch.emod 256).toNat
    ({ bu with b := bu.b.set bu.used v, used := bu.used + 1 }, (v : Int))

/-- `hexy_io_t`: the pull/push callback pair with its two opaque
contexts, byte counters and the sticky error flag.  `get_calls` and
`put_calls` are instrumentation counting invocations of the underlying
callbacks (they influence nothing). -/
structure hexy_io_t (σ τ : Type) where
  get : σ → σ × Int
  put : τ → Int → τ × Int
  in_st : σ
  out_st : τ
  read : Nat
  wrote : Nat
  error : Bool
  get_calls : Nat
  put_calls : Nat

/-- `hexy_get`: short-circuit on a recorded error, otherwise invoke the
underlying `get`; a successful pull bumps the read counter.  A negative
return from the underlying source does NOT set the error flag. -/
def hexy_get {σ τ : Type} (io : hexy_io_t σ τ) : hexy_io_t σ τ × Int :=
  if io.error then (io, HEXY_ELINE)
  else
    let r := io.get io.in_st
    ({ io with in_st := r.fst,
               read := io.read + (if 0 ≤ r.snd then 1 else 0),
               get_calls := io.get_calls + 1 }, r.snd)

/-- `hexy_put`: short-circuit on a recorded error, otherwise invoke the
underlying `put`; a negative return sets the sticky error flag. -/
def hexy_put {σ τ : Type} (io : hexy_io_t σ τ) (ch : Int) : hexy_io_t σ τ × Int :=
  if io.error then (io, HEXY_ELINE)
  else
    let r := io.put io.out_st ch
    ({ io with out_st := r.fst,
               wrote := io.wrote + (if 0 ≤ r.snd then 1 else 0),
               error := decide (r.snd < 0),
               put_calls := io.put_calls + 1 }, r.snd)

/-- One pull or push request against a stream binding. -/
inductive hexy_op
  | pull
  | push (ch : Int)

/-- Run a sequence of pull/push requests through `hexy_get`/`hexy_put`,
collecting every result. -/
def hexy_run_ops {σ τ : Type} (io : hexy_io_t σ τ) :
    List hexy_op → hexy_io_t σ τ × List Int
  | [] => (io, [])
  | op :: rest =>
    let s := match op with
      | .pull => hexy_get io
      | .push ch => hexy_put io ch
    let t := hexy_run_ops s.fst rest
    (t.fst, s.snd :: t.snd)

/-! ## Configuration (`hexy_t`), validation and defaulting -/

/-- `hexy_t`: the hexdump configuration and session state.  The five
separator fields are `Option String` (`none` models a NULL pointer,
distinct from an explicit empty string); `ioError` is the `io.error`
flag consulted by `hexy_validate`. -/
structure hexy_t where
  address : Nat
  buf_used : Nat
  sep_adr : Option String
  sep_eol : Option String
  sep_byt : Option String
  sep_ch1 : Option String
  sep_ch2 : Option String
  init : Bool
  chars_off : Bool
  addresses_off : Bool
  newlines_off : Bool
  uppercase_on : Bool
  rev_grp_on : Bool
  base : Int
  abase : Int
  group : Int
  ncols : Int
  ioError : Bool
deriving DecidableEq

/-- The all-zero `hexy_t` (C aggregate zero-initialization): every
numeric field 0, every pointer NULL, every flag false. -/
def hexy_zero : hexy_t :=
  { address := 0, buf_used := 0,
    sep_adr := none, sep_eol := none, sep_byt := none,
    sep_ch1 := none, sep_ch2 := none,
    init := false, chars_off := false, addresses_off := false,
    newlines_off := false, uppercase_on := false, rev_grp_on := false,
    base := 0, abase := 0, group := 0, ncols := 0, ioError := false }

/-- The distinct early-return sites of `hexy_validate` (the C returns
`-__LINE__` at each). -/
inductive hexy_verr
  | ioError
  | badBase
  | badNcols
  | badBufUsed
  | badGroup
deriving DecidableEq

/-- `hexy_validate`: range checks, first violation wins.  The C passes
`h->base` (an `int`) to `hexy_is_valid_base` through an unsigned
conversion; a negative base converts to a huge value and is invalid
either way, so `Int.toNat` preserves the verdict.  `sizeof(h->buf)` is
`HEXY_MAX_NCOLS * HEXY_MAX_GROUP = 256`. -/
def hexy_validate (h : hexy_t) : Option hexy_verr :=
  if h.ioError then some .ioError
  else if ¬ hexy_is_valid_base h.base.toNat then some .badBase
  else if h.ncols < 1 ∨ HEXY_MAX_NCOLS < h.ncols then some .badNcols
  else if 256 < h.buf_used then some .badBufUsed
  else if h.group < 1 ∨ HEXY_MAX_GROUP < h.group then some .badGroup
  else none

/-- The field substitutions of `hexy_config_default` on a
not-yet-initialized configuration: every zero/NULL field receives its
default (`abase` defaults to the already-defaulted `base`). -/
def hexy_apply_defaults (h : hexy_t) : hexy_t :=
  let b : Int := if h.base ≠ 0 then h.base else 16
  { h with
    base := b,
    ncols := if h.ncols ≠ 0 then h.ncols else 16,
    abase := if h.abase ≠ 0 then h.abase else b,
    sep_adr := some (h.sep_adr.getD HEXY_SEP_ADR),
    sep_eol := some (h.sep_eol.getD HEXY_SEP_EOL),
    sep_ch1 := some (h.sep_ch1.getD HEXY_SEP_CH1),
    sep_ch2 := some (h.sep_ch2.getD HEXY_SEP_CH2),
    sep_byt := some (h.sep_byt.getD HEXY_SEP_BYT),
    group := if h.group ≠ 0 then h.group else 1 }

/-- Result of `hexy_config_default`: on an initialized configuration
the validation result is returned directly; on a fresh one a failed
validation yields the generic `-1` return (`defaultFailed`). -/
inductive hexy_cfg_err
  | validateFailed (e : hexy_verr)
  | defaultFailed
deriving DecidableEq

/-- `hexy_config_default`: skip straight to validation when `init` is
set; otherwise substitute defaults, validate, and mark initialized
only on success.  The mutated struct is returned even on failure, as
in the C (which mutates in place). -/
def hexy_config_default (h : hexy_t) : hexy_t × Option hexy_cfg_err :=
  if h.init then (h, (hexy_validate h).map .validateFailed)
  else
    let h3 := hexy_apply_defaults h
    if (hexy_validate h3).isSome then (h3, some .defaultFailed)
    else ({ h3 with init := true }, none)

-- Sanity: defaulting the zero config.
example : (hexy_config_default hexy_zero).snd = none := by decide
example : (hexy_config_default hexy_zero).fst.base = 16 := by decide
example : (hexy_config_default hexy_zero).fst.ncols = 16 := by decide
example : (hexy_config_default hexy_zero).fst.abase = 16 := by decide
example : (hexy_config_default hexy_zero).fst.group = 1 := by decide
example : (hexy_config_default hexy_zero).fst.sep_ch1 = some "  |" := by decide
example : (hexy_config_default { hexy_zero with base := 37 }).snd =
    some .defaultFailed := by decide

/-! ## The dump driver (`hexy`) and its line formatter

The driver below dumps from an in-memory byte list (the buffer `get`
binding: pulls fail exactly when the list is exhausted) into an
always-succeeding sink, accumulating the written characters.  Output
errors therefore cannot occur; the only in-loop failure the model can
produce is a failed numeral conversion (invalid base), mirroring the
corresponding `HEXY_ELINE` returns. -/

/-- Read a separator string for output.  After `hexy_config_default`
every separator is non-NULL; a NULL separator would be undefined
behavior in the C, modelled as the empty string. -/
def hexy_sep (s : Option String) : List Char :=
  (s.getD "").toList

/-- `hexy_newlines_enabled`: newlines are written unless newline,
character and address printing are ALL suppressed. -/
def hexy_newlines_enabled (h : hexy_t) : Bool :=
  !h.newlines_off || !h.chars_off || !h.addresses_off

/-- `hexy_newline`: the end-of-line separator, when enabled. -/
def hexy_newline (h : hexy_t) : List Char :=
  if hexy_newlines_enabled h then hexy_sep h.sep_eol else []

/-- `hexy_spaces`: `spaces` space characters, clamped to ≥ 0. -/
def hexy_spaces (spaces : Int) : List Char :=
  List.replicate spaces.toNat ' '

/-- `hexy_print_byte`: the byte itself when graphic, otherwise the
non-graphic replacement character. -/
def hexy_print_byte (ch : Nat) : Char :=
  if hexy_isgraph ch then Char.ofNat ch else HEXY_NON_GRAPHIC_REPLACEMENT_CHAR

/-- `hexy_print_address`: nothing when addresses are off; otherwise the
address right-aligned in `abase` against reference maximum 65535 with
up to 4 SPACE characters of padding, followed by the after-address
separator. -/
def hexy_print_address (h : hexy_t) (addr : Nat) : Option (List Char) :=
  if h.addresses_off then some []
  else
    match hexy_aligned_print_number addr h.abase.toNat 65535 4 ' ' h.uppercase_on with
    | none => none
    | some s => some (s ++ hexy_sep h.sep_adr)

/-- The group-reversal pass of `hexy` (lines 629-647): reverse, in
place, each of the `buf_used / group` complete groups; a trailing
incomplete group is not touched. -/
def hexy_rev_groups (group : Nat) (buf : List Nat) : List Nat :=
  (hexy_iota (buf.length / group)).foldl
    (fun acc i =>
      acc.take (i * group) ++
      hexy_reverse ((acc.drop (i * group)).take group) ++
      acc.drop (i * group + group))
    buf

/-- The inner byte-slot loop of one column (`for j < group`): print the
byte at `idx = i*group + j` aligned against 255, breaking out at the
first slot beyond the valid data. -/
def hexy_byte_slots (base : Nat) (upper : Bool) (byte_align : Nat)
    (buf : List Nat) (idx : Nat) : Nat → Option (List Char)
  | 0 => some []
  | count + 1 =>
    if buf.length ≤ idx then some []
    else
      match hexy_aligned_print_number (buf.getD idx 0) base 255 byte_align '0' upper with
      | none => none
      | some s =>
        match hexy_byte_slots base upper byte_align buf (idx + 1) count with
        | none => none
        | some rest => some (s ++ rest)

/-- The column loop of `hexy` (`for i < ncols`): each column prints its
byte slots and then, unconditionally, one between-bytes separator. -/
def hexy_byte_columns (base : Nat) (upper : Bool) (byte_align group : Nat)
    (sep_byt : List Char) (buf : List Nat) (i : Nat) : Nat → Option (List Char)
  | 0 => some []
  | count + 1 =>
    match hexy_byte_slots base upper byte_align buf (i * group) group with
    | none => none
    | some cells =>
      match hexy_byte_columns base upper byte_align group sep_byt buf (i + 1) count with
      | none => none
      | some rest => some (cells ++ sep_byt ++ rest)

/-- The character-view block of `hexy` (lines 662-678): alignment
spaces for the missing byte slots, the before-view separator, one
character per valid byte, `missing` more spaces, the after-view
separator. -/
def hexy_char_view (h : hexy_t) (byte_align : Nat) (buf : List Nat) : List Char :=
  let elements : Int := ((h.ncols.toNat * h.group.toNat : Nat) : Int)
  let missing : Int := elements - (buf.length : Int)
  hexy_spaces ((byte_align : Int) * missing) ++ hexy_sep h.sep_ch1 ++
  buf.map hexy_print_byte ++ hexy_spaces missing ++ hexy_sep h.sep_ch2

/-- One iteration of the body of the dump loop after the line buffer
has been filled: address, optional group reversal, byte columns,
optional character view, and the per-line end-of-line separator. -/
def hexy_format_line (h : hexy_t) (byte_align : Nat) (chunk : List Nat)
    (addr : Nat) : Option (List Char) :=
  match hexy_print_address h addr with
  | none => none
  | some adr =>
    let buf := if h.rev_grp_on then hexy_rev_groups h.group.toNat chunk else chunk
    match hexy_byte_columns h.base.toNat h.uppercase_on byte_align h.group.toNat
        (hexy_sep h.sep_byt) buf 0 h.ncols.toNat with
    | none => none
    | some bytes =>
      let chars := if !h.chars_off then hexy_char_view h byte_align buf else []
      some (adr ++ bytes ++ chars ++ hexy_newline h)

/-- The overflow test of `hexy` line 681: `(address + buf_used) <=
address` in `uint64_t` arithmetic. -/
def hexy_addr_overflow (address buf_used : Nat) : Bool :=
  decide ((address + buf_used) % HEXY_U64 ≤ address)

/-- Results of a `hexy` run, one per distinct return path of the C
function.  `outOfFuel` is unreachable: the loop fuel strictly exceeds
the number of lines, each of which consumes at least one input byte.
`lenZero` models the C `assert(length > 0)`, unreachable after
validation. -/
inductive hexy_result
  | ok
  | configError
  | formatError
  | overflowError
  | lenZero
  | outOfFuel
deriving DecidableEq

/-- The outer dump loop of `hexy`: read up to `len` bytes, stop with no
output for an empty line (the `goto done` when the very first pull of a
line fails), otherwise format the chunk, check address overflow, and
either terminate (short line, with one extra trailing
`hexy_newline`) or continue with the rest of the input. -/
def hexy_loop (h : hexy_t) (byte_align len : Nat) :
    Nat → Nat → List Nat → List Char → List Char × hexy_result
  | 0, _, _, out => (out, .outOfFuel)
  | fuel + 1, address, inp, out =>
    if len = 0 then (out, .lenZero)
    else if inp.isEmpty then (out, .ok)
    else
      let chunk := inp.take len
      let ended := inp.length < len
      match hexy_format_line h byte_align chunk address with
      | none => (out, .formatError)
      | some line =>
        if hexy_addr_overflow address chunk.length then
          (out ++ line, .overflowError)
        else
          if ended then (out ++ line ++ hexy_newline h, .ok)
          else
            hexy_loop h byte_align len fuel ((address + chunk.length) % HEXY_U64)
              (inp.drop len) (out ++ line)

/-- `hexy`: default/validate the configuration, then run the dump loop
over the input bytes, starting from the caller-seeded address. -/
def hexy (h : hexy_t) (input : List Nat) : List Char × hexy_result :=
  match hexy_config_default h with
  | (_, some _) => ([], .configError)
  | (h2, none) =>
    let byte_align := hexy_unsigned_integer_logarithm 255 h2.base.toNat
    let len := h2.ncols.toNat * h2.group.toNat
    hexy_loop h2 byte_align len (input.length + 1) h2.address input []

/-! ## Spec-side definitions

These two definitions follow the words of the specification, not the
source; they exist only to be compared with the source-derived
definitions above (round-trip re-parsing for the numeral converter,
and the per-group description of the reversal pass). -/

/-- Value of one digit character, accepting either case, per the
36-character alphabet `0-9a-z` and its uppercase variant; 99 marks a
non-digit (any value ≥ 36 works). -/
def hexy_digit_value (ch : Char) : Nat :=
  if '0' ≤ ch ∧ ch ≤ '9' then ch.toNat - 48
  else if 'a' ≤ ch ∧ ch ≤ 'z' then 10 + (ch.toNat - 97)
  else if 'A' ≤ ch ∧ ch ≤ 'Z' then 10 + (ch.toNat - 65)
  else 99

/-- Re-parse a digit string (most-significant first) as a number in
`base`; fails on an empty string or on any character whose digit value
is not below `base`. -/
def parse_number_in_base (base : Nat) (s : List Char) : Option Nat :=
  if s.isEmpty then none
  else
    s.foldl
      (fun acc ch =>
        match acc with
        | none => none
        | some a =>
          let d := hexy_digit_value ch
          if d < base then some (a * base + d) else none)
      (some 0)

/-- The specified effect of the group-reversal pass: each complete
group of `group` bytes is replaced by its reversal (`List.reverse`),
and the bytes of an incomplete trailing group are left untouched. -/
def hexy_rev_groups_described (group : Nat) (buf : List Nat) : List Nat :=
  let limit := buf.length / group
  (((List.range limit).map
      fun i => ((buf.drop (i * group)).take group).reverse).flatten) ++
  buf.drop (limit * group)

/-- The successive line chunks the dump loop reads: `len` bytes at a
time, with a final short chunk when the input is not a multiple of
`len` (mirrors the take/drop structure of `hexy_loop`). -/
def hexy_line_chunks (len : Nat) : Nat → List Nat → List (List Nat)
  | 0, _ => []
  | fuel + 1, inp =>
    if len = 0 then []
    else if inp.isEmpty then []
    else if inp.length < len then [inp.take len]
    else inp.take len :: hexy_line_chunks len fuel (inp.drop len)

-- Sanity checks for the spec-side definitions.
example : parse_number_in_base 16 ['f', 'f'] = some 255 := by decide
example : parse_number_in_base 16 ['F', 'F'] = some 255 := by decide
example : parse_number_in_base 16 [] = none := by decide
example : hexy_rev_groups_described 2 [1, 2, 3] = [2, 1, 3] := by decide
example : hexy_line_chunks 2 4 [1, 2, 3] = [[1, 2], [3]] := by decide

/-! ## Helper lemmas -/

/-- The in-place swap loop of `hexy_reverse` agrees with list reversal
on every list of length at most 8 (the only lengths it is applied to
inside the dump: byte groups are capped at `HEXY_MAX_GROUP = 8`, and
digit strings of byte values in bases ≥ 2 have at most 8 digits). -/
theorem hexy_iota_go_eq_range' (k i : Nat) :
    hexy_iota_go k i = List.range' i k := by
  induction k generalizing i with
  | zero => rfl
  | succ k ih => simp [hexy_iota_go, List.range', ih]

/-- `hexy_iota` is `List.range`. -/
theorem hexy_iota_eq_range (n : Nat) : hexy_iota n = List.range n := by
  rw [hexy_iota, hexy_iota_go_eq_range', List.range_eq_range']

theorem hexy_reverse_eq_reverse_of_len_le_eight {α : Type} :
    ∀ (l : List α), l.length ≤ 8 → hexy_reverse l = l.reverse
  | [], _ => by simp [hexy_reverse, hexy_swap, hexy_iota, hexy_iota_go]
  | [_], _ => by simp [hexy_reverse, hexy_swap, hexy_iota, hexy_iota_go]
  | [_, _], _ => by simp [hexy_reverse, hexy_swap, hexy_iota, hexy_iota_go]
  | [_, _, _], _ => by simp [hexy_reverse, hexy_swap, hexy_iota, hexy_iota_go]
  | [_, _, _, _], _ => by simp [hexy_reverse, hexy_swap, hexy_iota, hexy_iota_go]
  | [_, _, _, _, _], _ => by simp [hexy_reverse, hexy_swap, hexy_iota, hexy_iota_go]
  | [_, _, _, _, _, _], _ => by
    simp [hexy_reverse, hexy_swap, hexy_iota, hexy_iota_go]
  | [_, _, _, _, _, _, _], _ => by
    simp [hexy_reverse, hexy_swap, hexy_iota, hexy_iota_go]
  | [_, _, _, _, _, _, _, _], _ => by
    simp [hexy_reverse, hexy_swap, hexy_iota, hexy_iota_go]
  | _ :: _ :: _ :: _ :: _ :: _ :: _ :: _ :: _ :: _, hlen => by
    simp only [List.length_cons] at hlen
    omega

/-- Take at the length of the left part of an append. -/
theorem hexy_take_append {α : Type} (P S : List α) :
    (P ++ S).take P.length = P := by
  induction P with
  | nil => simp
  | cons a t ih => simp [ih]

/-- Drop past the left part of an append. -/
theorem hexy_drop_append {α : Type} (P S : List α) (n : Nat) :
    (P ++ S).drop (P.length + n) = S.drop n := by
  induction P with
  | nil => simp
  | cons a t ih =>
    rw [List.cons_append, List.length_cons, Nat.succ_add, List.drop_succ_cons]
    exact ih

/-- The conversion loop agrees with `Nat.digits` (least-significant
first), with the degenerate `dv = 0` case producing the single digit
0, whenever the fuel exceeds the value. -/
theorem hexy_digits_loop_eq_digits (base : Nat) (upper : Bool) (hb : 2 ≤ base) :
    ∀ (dv : Nat), ∀ (fuel : Nat), dv < fuel →
    hexy_digits_loop base upper fuel dv =
      if dv = 0 then [hexy_digit_char upper 0]
      else (Nat.digits base dv).map (hexy_digit_char upper)
  | dv => fun fuel hf => by
    match fuel, hf with
    | fuel + 1, hf =>
      rw [hexy_digits_loop]
      by_cases h0 : dv = 0
      · subst h0
        simp
      · by_cases hq : dv / base = 0
        · have hlt : dv < base := (Nat.div_eq_zero_iff (by omega)).mp hq
          rw [if_pos hq, if_neg h0, Nat.digits_of_lt base dv h0 hlt,
            Nat.mod_eq_of_lt hlt]
          simp
        · have hdvpos : 0 < dv := Nat.pos_of_ne_zero h0
          have hstep : dv / base < dv := Nat.div_lt_self hdvpos (by omega)
          have hfuel : dv / base < fuel := by omega
          rw [if_neg hq, if_neg h0,
            hexy_digits_loop_eq_digits base upper hb (dv / base) fuel hfuel,
            if_neg hq, Nat.digits_def' (by omega : 1 < base) hdvpos]
          simp

/-- Digit strings of byte values (≤ 255) have at most 8 digits in any
base ≥ 2. -/
theorem hexy_digits_len_le_eight (base v : Nat) (hb : 2 ≤ base) (hv : v ≤ 255) :
    (Nat.digits base v).length ≤ 8 := by
  by_cases h0 : v = 0
  · subst h0
    simp
  · by_contra hgt
    set L := (Nat.digits base v).length with hL
    have h9 : 9 ≤ L := by omega
    have h1 : base ^ L ≤ base * v :=
      Nat.base_pow_length_digits_le base v (by omega) h0
    have hsplit : base ^ L = base * base ^ (L - 1) := by
      rw [← pow_succ']
      congr 1
      omega
    have h1' : base ^ (L - 1) ≤ v := by
      rw [hsplit] at h1
      exact Nat.le_of_mul_le_mul_left h1 (by omega)
    have h2 : (2 : Nat) ^ (L - 1) ≤ base ^ (L - 1) :=
      Nat.pow_le_pow_left hb _
    have h3 : (2 : Nat) ^ 8 ≤ 2 ^ (L - 1) :=
      Nat.pow_le_pow_right (by omega) (by omega)
    have : (256 : Nat) ≤ v := by
      calc (256 : Nat) = 2 ^ 8 := by norm_num
      _ ≤ 2 ^ (L - 1) := h3
      _ ≤ base ^ (L - 1) := h2
      _ ≤ v := h1'
    omega

/-- `hexy_unum_to_string` on byte values: valid base, so the digit
buffer (at most 8 characters) is produced and reversed into
most-significant-first order. -/
theorem hexy_unum_to_string_eq_digits (v base : Nat) (up : Bool)
    (hb2 : 2 ≤ base) (hb36 : base ≤ 36) (hv : v ≤ 255) :
    hexy_unum_to_string v base up =
      some ((if v = 0 then [hexy_digit_char up 0]
             else (Nat.digits base v).map (hexy_digit_char up)).reverse) := by
  have hvb : hexy_is_valid_base base = true := by
    simp [hexy_is_valid_base]
    omega
  rw [hexy_unum_to_string, if_pos hvb,
    hexy_digits_loop_eq_digits base up hb2 v (v + 1) (by omega)]
  congr 1
  apply hexy_reverse_eq_reverse_of_len_le_eight
  by_cases h0 : v = 0
  · simp [h0]
  · simp only [if_neg h0, List.length_map]
    exact hexy_digits_len_le_eight base v hb2 hv

/-- Re-reading a digit character gives back its value (both cases of
the 36-character alphabet). -/
theorem hexy_digit_value_digit_char :
    ∀ d, d < 36 → ∀ (up : Bool), hexy_digit_value (hexy_digit_char up d) = d := by
  decide

/-- Folding the parse step over a mapped digit list accumulates
most-significant-first, provided every digit is below the base. -/
theorem hexy_parse_foldl (base : Nat) (hb36 : base ≤ 36) (up : Bool) :
    ∀ (l : List Nat) (acc : Nat), (∀ d ∈ l, d < base) →
    List.foldl
      (fun acc ch =>
        match acc with
        | none => none
        | some a =>
          let d := hexy_digit_value ch
          if d < base then some (a * base + d) else none)
      (some acc) (l.map (hexy_digit_char up)) =
      some (l.foldl (fun a d => a * base + d) acc) := by
  intro l
  induction l with
  | nil => intro acc _; rfl
  | cons d t ih =>
    intro acc hmem
    have hd : d < base := hmem d (List.mem_cons_self d t)
    have hval : hexy_digit_value (hexy_digit_char up d) = d :=
      hexy_digit_value_digit_char d (by omega) up
    simp only [List.map_cons, List.foldl_cons, hval, if_pos hd]
    exact ih (acc * base + d) (fun x hx => hmem x (List.mem_cons_of_mem d hx))

/-- The most-significant-first fold over the reversed digit list
computes `Nat.ofDigits`. -/
theorem hexy_foldl_reverse_ofDigits (base : Nat) :
    ∀ (L : List Nat) (acc : Nat),
    L.reverse.foldl (fun a d => a * base + d) acc =
      Nat.ofDigits base L + acc * base ^ L.length := by
  intro L
  induction L with
  | nil => intro acc; simp [Nat.ofDigits]
  | cons d T ih =>
    intro acc
    rw [List.reverse_cons, List.foldl_append, ih]
    simp only [List.foldl_cons, List.foldl_nil, Nat.ofDigits_cons,
      List.length_cons]
    ring

/-- Every digit of `Nat.digits` is below the base, transported through
`List.reverse` membership. -/
theorem hexy_digits_reverse_lt (base v : Nat) (hb : 2 ≤ base) :
    ∀ d ∈ (Nat.digits base v).reverse, d < base := by
  intro d hd
  exact Nat.digits_lt_base (by omega) (List.mem_reverse.mp hd)

/-- CLAIM C5.  For every base in 2..36, every value in 0..255 and
either digit case, converting with `hexy_unum_to_string` and
re-parsing the digit string in the same base recovers the value, and
the value 0 yields the single digit string "0". -/
theorem hexy_claim_c5 :
    ∀ (base : Nat), 2 ≤ base → base ≤ 36 →
    ∀ (v : Nat), v ≤ 255 → ∀ (up : Bool),
    parse_number_in_base base ((hexy_unum_to_string v base up).getD []) = some v ∧
    hexy_unum_to_string 0 base up = some ['0'] := by
  intro base hb2 hb36 v hv up
  have hzero : hexy_unum_to_string 0 base up = some ['0'] := by
    rw [hexy_unum_to_string_eq_digits 0 base up hb2 hb36 (by omega)]
    have : hexy_digit_char up 0 = '0' := by cases up <;> decide
    simp [this]
  refine ⟨?_, hzero⟩
  by_cases h0 : v = 0
  · subst h0
    rw [hzero]
    have h1 : hexy_digit_value '0' = 0 := by decide
    simp [parse_number_in_base, h1]
    omega
  · rw [hexy_unum_to_string_eq_digits v base up hb2 hb36 hv, if_neg h0,
      Option.getD_some, ← List.map_reverse]
    have hne : (Nat.digits base v).reverse ≠ [] := by
      simp [Nat.digits_ne_nil_iff_ne_zero.mpr h0]
    rw [parse_number_in_base, if_neg (by simpa [List.isEmpty_iff] using hne)]
    rw [hexy_parse_foldl base hb36 up _ 0 (hexy_digits_reverse_lt base v hb2)]
    rw [hexy_foldl_reverse_ofDigits base]
    simp [Nat.ofDigits_digits]

/-- Witness for C5 at base 16, value 255, lowercase. -/
theorem hexy_claim_c5_witness :
    parse_number_in_base 16 ((hexy_unum_to_string 255 16 false).getD []) =
      some 255 ∧
    hexy_unum_to_string 0 16 false = some ['0'] :=
  hexy_claim_c5 16 (by decide) (by decide) 255 (by decide) false

/-- Length of the described head (the first `k` complete groups, each
reversed): exactly `k * g` bytes, as long as those groups fit. -/
theorem hexy_rev_groups_head_len (g : Nat) (buf : List Nat) :
    ∀ k, k * g ≤ buf.length →
    (((List.range k).map
        fun i => ((buf.drop (i * g)).take g).reverse).flatten).length = k * g := by
  intro k
  induction k with
  | zero => intro _; simp
  | succ k ih =>
    intro hk
    have hsucc : (k + 1) * g = k * g + g := Nat.succ_mul k g
    have hk' : k * g ≤ buf.length := by omega
    rw [List.range_succ, List.map_append, List.flatten_append,
      List.length_append, ih hk']
    simp only [List.map_cons, List.map_nil, List.flatten_cons,
      List.flatten_nil, List.append_nil, List.length_reverse,
      List.length_take, List.length_drop]
    omega

/-- Invariant of the reversal loop: after the first `k` iterations the
buffer consists of the first `k` groups reversed followed by the
untouched remainder. -/
theorem hexy_rev_groups_invariant (g : Nat) (hg1 : 1 ≤ g) (hg8 : g ≤ 8)
    (buf : List Nat) :
    ∀ k, k * g ≤ buf.length →
    (List.range k).foldl
      (fun acc i =>
        acc.take (i * g) ++
        hexy_reverse ((acc.drop (i * g)).take g) ++
        acc.drop (i * g + g))
      buf =
    (((List.range k).map
        fun i => ((buf.drop (i * g)).take g).reverse).flatten) ++
      buf.drop (k * g) := by
  intro k
  induction k with
  | zero => simp
  | succ k ih =>
    intro hk
    have hsucc : (k + 1) * g = k * g + g := Nat.succ_mul k g
    have hk' : k * g ≤ buf.length := by omega
    have hPlen := hexy_rev_groups_head_len g buf k hk'
    rw [List.range_succ, List.foldl_append, ih hk', List.map_append,
      List.flatten_append]
    simp only [List.foldl_cons, List.foldl_nil, List.map_cons, List.map_nil,
      List.flatten_cons, List.flatten_nil, List.append_nil]
    set P := ((List.range k).map
        fun i => ((buf.drop (i * g)).take g).reverse).flatten with hP
    set S := buf.drop (k * g) with hS
    have htake : (P ++ S).take (k * g) = P := by
      rw [← hPlen]
      exact hexy_take_append P S
    have hdrop0 : (P ++ S).drop (k * g) = S := by
      have h0 := hexy_drop_append P S 0
      rw [Nat.add_zero, hPlen, List.drop_zero] at h0
      exact h0
    have hdropg : (P ++ S).drop (k * g + g) = S.drop g := by
      have := hexy_drop_append P S g
      rwa [hPlen] at this
    have hrev : hexy_reverse (S.take g) = (S.take g).reverse := by
      apply hexy_reverse_eq_reverse_of_len_le_eight
      simp only [List.length_take]
      omega
    rw [htake, hdrop0, hdropg, hrev]
    have hSdrop : S.drop g = buf.drop ((k + 1) * g) := by
      rw [hS, List.drop_drop]
      congr 1
      omega
    rw [hSdrop, List.append_assoc]

/-- The reversal pass of the dump loop equals its specification: each
complete group reversed, the incomplete trailing group untouched. -/
theorem hexy_rev_groups_eq_described (g : Nat) (buf : List Nat)
    (hg1 : 1 ≤ g) (hg8 : g ≤ 8) :
    hexy_rev_groups g buf = hexy_rev_groups_described g buf := by
  rw [hexy_rev_groups, hexy_iota_eq_range,
    hexy_rev_groups_invariant g hg1 hg8 buf (buf.length / g)
      (Nat.div_mul_le_self _ _)]
  rfl

/-! ## Claims about the dump driver: concrete scenarios -/

/-- CLAIM C1 (counterexample).  Under the default configuration on
input [0x41, 0x42, 0x0A], the claimed output shape is wrong: the dump
does NOT render the address as "0000" (it is space-padded to "   0")
and does NOT end with a single end-of-line separator (the short final
line receives the per-line separator and one more trailing one). -/
theorem hexy_claim_c1_counterexample :
    ¬(((hexy hexy_zero [0x41, 0x42, 0x0A]).fst.take 4 = "0000".toList) ∧
      ((hexy hexy_zero [0x41, 0x42, 0x0A]).fst.count '\n' = 1)) := by
  decide

/-- CLAIM C1 (amended).  Under the default configuration (base 16, 16
columns, group size 1, addresses, character view and end-of-line all
enabled, address seeded at 0), dumping [0x41, 0x42, 0x0A] succeeds
and produces: the address right-aligned with spaces as "   0", the
after-address separator, the bytes "41 42 0a" each followed by the
between-bytes separator, 13 further between-bytes separators (one per
empty column), 26 alignment spaces, the character view "AB." (0x0A
replaced by the placeholder) padded with 13 spaces, and TWO
end-of-line separators (the per-line one plus the final short-line
one). -/
theorem hexy_claim_c1_amended :
    hexy hexy_zero [0x41, 0x42, 0x0A] =
      ("   0:\t".toList ++ "41 42 0a ".toList ++ List.replicate 13 ' ' ++
       List.replicate 26 ' ' ++ "  |".toList ++ "AB.".toList ++
       List.replicate 13 ' ' ++ "|".toList ++ "\n".toList ++ "\n".toList,
       .ok) := by
  decide

/-- The fully "raw" configuration: character view, addresses and
newlines all suppressed. -/
def hexy_raw_cfg : hexy_t :=
  { hexy_zero with
    chars_off := true
    addresses_off := true
    newlines_off := true }

/-- CLAIM C2 (counterexample).  In raw mode on [0x41, 0x42, 0x0A] the
output is not the nine characters "41 42 0a ": the column loop writes
its separator for all 16 columns, including the 13 empty ones. -/
theorem hexy_claim_c2_counterexample :
    (hexy hexy_raw_cfg [0x41, 0x42, 0x0A]).fst ≠ "41 42 0a ".toList := by
  decide

/-- CLAIM C2 (amended).  In raw mode (base 16, 16 columns, group size
1, addresses, character view and end-of-line all suppressed) dumping
[0x41, 0x42, 0x0A] succeeds and produces exactly "41 42 0a " followed
by 13 further between-bytes separators (one per empty column) - 22
characters in all, with no address, no character panel and no
end-of-line. -/
theorem hexy_claim_c2_amended :
    hexy hexy_raw_cfg [0x41, 0x42, 0x0A] =
      ("41 42 0a ".toList ++ List.replicate 13 ' ', .ok) := by
  decide

/-- CLAIM C4.  Group reversal reverses each complete group and leaves
an incomplete trailing group untouched (first conjunct, against the
spec-side description); concretely with group size 2 the buffer
[0x01, 0x02, 0x03] becomes [0x02, 0x01, 0x03], and the dump in raw
mode with 2 columns prints "0201 03 ". -/
theorem hexy_claim_c4 :
    (∀ (group : Nat) (buf : List Nat), 1 ≤ group → group ≤ 8 →
      hexy_rev_groups group buf = hexy_rev_groups_described group buf) ∧
    hexy_rev_groups 2 [1, 2, 3] = [2, 1, 3] ∧
    hexy { hexy_raw_cfg with ncols := 2, group := 2, rev_grp_on := true }
        [1, 2, 3] = ("0201 03 ".toList, .ok) := by
  refine ⟨fun g buf h1 h8 => hexy_rev_groups_eq_described g buf h1 h8,
    by decide, by decide⟩

/-- Witness for C4 at group size 2 on the buffer [1, 2, 3]. -/
theorem hexy_claim_c4_witness :
    hexy_rev_groups 2 [1, 2, 3] = hexy_rev_groups_described 2 [1, 2, 3] :=
  hexy_claim_c4.1 2 [1, 2, 3] (by decide) (by decide)

/-! ## Validation and defaulting lemmas -/

/-- Field ranges guaranteed by a successful validation. -/
theorem hexy_validate_ok (h : hexy_t) (hv : hexy_validate h = none) :
    h.ioError = false ∧ hexy_is_valid_base h.base.toNat = true ∧
    1 ≤ h.ncols ∧ h.ncols ≤ 32 ∧ h.buf_used ≤ 256 ∧
    1 ≤ h.group ∧ h.group ≤ 8 := by
  unfold hexy_validate at hv
  split_ifs at hv with h1 h2 h3 h4 h5
  simp only [HEXY_MAX_NCOLS, HEXY_MAX_GROUP] at h3 h5
  refine ⟨by simpa using h1, by simpa using h2, ?_, ?_, by omega, ?_, ?_⟩ <;> omega

/-- Validation ignores the `init` flag. -/
theorem hexy_validate_init (h : hexy_t) (b : Bool) :
    hexy_validate { h with init := b } = hexy_validate h := rfl

/-- A successful `hexy_config_default` leaves a configuration that
validates. -/
theorem hexy_config_default_ok (h : hexy_t)
    (hc : (hexy_config_default h).snd = none) :
    hexy_validate (hexy_config_default h).fst = none := by
  unfold hexy_config_default at hc ⊢
  by_cases hi : h.init
  · simp only [hi, if_true] at hc ⊢
    exact Option.map_eq_none.mp hc
  · simp only [hi, if_false] at hc ⊢
    by_cases hs : (hexy_validate (hexy_apply_defaults h)).isSome
    · simp [hs] at hc
    · simp only [hs, if_false] at hc ⊢
      simp only [Bool.false_eq_true] at hs
      rw [hexy_validate_init]
      exact Option.not_isSome_iff_eq_none.mp (by simpa using hs)

/-- `hexy_config_default` never changes the seeded address. -/
theorem hexy_config_default_address (h : hexy_t) :
    (hexy_config_default h).fst.address = h.address := by
  unfold hexy_config_default
  by_cases hi : h.init
  · simp [hi]
  · simp only [hi, if_false]
    by_cases hs : (hexy_validate (hexy_apply_defaults h)).isSome
    · simp only [hs, if_true]
      simp [hexy_apply_defaults]
    · simp only [hs, if_false]
      simp [hexy_apply_defaults]

/-- CLAIM C3.  Dumping an empty input through the driver under any
configuration that defaults-and-validates successfully succeeds with
zero bytes of output; moreover the output is empty on empty input for
EVERY configuration, valid or not. -/
theorem hexy_claim_c3 :
    (∀ h : hexy_t, (hexy_config_default h).snd = none →
      hexy h [] = ([], .ok)) ∧
    (∀ h : hexy_t, (hexy h []).fst = []) := by
  constructor
  · intro h hc
    rcases hd : hexy_config_default h with ⟨c2, r⟩
    have hr : r = none := by
      have := hc
      rw [hd] at this
      exact this
    subst hr
    have hval : hexy_validate c2 = none := by
      have h2 := hexy_config_default_ok h hc
      rw [hd] at h2
      exact h2
    obtain ⟨-, -, hn1, -, -, hg1, -⟩ := hexy_validate_ok _ hval
    have hlen : 1 ≤ c2.ncols.toNat * c2.group.toNat :=
      Nat.mul_pos (by omega) (by omega)
    unfold hexy
    rw [hd]
    simp only
    rw [hexy_loop]
    rw [if_neg (by omega)]
    simp
  · intro h
    unfold hexy
    rcases hd : hexy_config_default h with ⟨c2, r⟩
    cases r with
    | some e => simp
    | none =>
      simp only
      rw [hexy_loop]
      by_cases hz : c2.ncols.toNat * c2.group.toNat = 0 <;> simp [hz]

/-- Witness for C3 on the default configuration. -/
theorem hexy_claim_c3_witness :
    hexy hexy_zero [] = ([], .ok) :=
  hexy_claim_c3.1 hexy_zero (by decide)

/-- Re-applying the default substitutions changes nothing: every
field they might set is non-zero/non-NULL after the first pass. -/
theorem hexy_apply_defaults_idem (h : hexy_t) :
    hexy_apply_defaults (hexy_apply_defaults h) = hexy_apply_defaults h := by
  unfold hexy_apply_defaults
  by_cases hb : h.base = 0 <;> by_cases hn : h.ncols = 0 <;>
    by_cases ha : h.abase = 0 <;> by_cases hg : h.group = 0 <;>
      simp [hb, hn, ha, hg]

/-- The default substitutions never touch the `init` flag. -/
theorem hexy_apply_defaults_init (h : hexy_t) :
    (hexy_apply_defaults h).init = h.init := rfl

/-- CLAIM C9.  Configuration defaulting is idempotent: with the
initialized flag set it changes no field (and goes straight to
validation), and applying it twice to any configuration gives the
same configuration and the same result as applying it once. -/
theorem hexy_claim_c9 (h : hexy_t) :
    (h.init = true →
      (hexy_config_default h).fst = h ∧
      (hexy_config_default h).snd =
        (hexy_validate h).map .validateFailed) ∧
    hexy_config_default (hexy_config_default h).fst = hexy_config_default h := by
  constructor
  · intro hi
    unfold hexy_config_default
    simp [hi]
  · by_cases hi : h.init
    · unfold hexy_config_default
      simp [hi]
    · rcases hs : hexy_validate (hexy_apply_defaults h) with - | e
      · have h1 : hexy_config_default h =
            ({ hexy_apply_defaults h with init := true }, none) := by
          unfold hexy_config_default
          simp [hi, hs]
        rw [h1]
        unfold hexy_config_default
        simp only [show ({ hexy_apply_defaults h with init := true } :
          hexy_t).init = true from rfl, if_true]
        rw [hexy_validate_init, hs]
        simp
      · have h1 : hexy_config_default h =
            (hexy_apply_defaults h, some .defaultFailed) := by
          unfold hexy_config_default
          simp [hi, hs]
        rw [h1]
        unfold hexy_config_default
        simp only
        rw [if_neg (by rw [hexy_apply_defaults_init]; simp [hi]),
          hexy_apply_defaults_idem, hs]
        simp

/-- A concrete already-initialized configuration for the C9 witness. -/
def hexy_c9w_cfg : hexy_t :=
  { hexy_zero with
    init := true
    base := 16
    ncols := 16
    group := 1 }

/-- Witness for C9: an initialized configuration is returned
unchanged, and defaulting the zero configuration twice equals
defaulting it once. -/
theorem hexy_claim_c9_witness :
    (hexy_config_default hexy_c9w_cfg).fst = hexy_c9w_cfg ∧
    hexy_config_default (hexy_config_default hexy_zero).fst =
      hexy_config_default hexy_zero :=
  ⟨((hexy_claim_c9 hexy_c9w_cfg).1 rfl).1, (hexy_claim_c9 hexy_zero).2⟩

/-- A failed `hexy_config_default` makes `hexy` return the
configuration error before touching the input or producing output,
whatever the input is. -/
theorem hexy_config_error (h : hexy_t) (input : List Nat) (e : hexy_cfg_err)
    (hc : (hexy_config_default h).snd = some e) :
    hexy h input = ([], .configError) := by
  unfold hexy
  rcases hd : hexy_config_default h with ⟨c2, r⟩
  rw [hd] at hc
  simp only at hc
  subst hc
  simp only

/-- CLAIM C7 (counterexample).  A not-yet-initialized configuration
whose columns field is 0 does NOT fail: the zero configuration (with
`ncols = 0`) dumps one byte successfully. -/
theorem hexy_claim_c7_counterexample :
    (hexy hexy_zero [0x41]).snd = .ok := by
  decide

/-- An already-initialized configuration with `ncols = 0` (base and
group valid so the column check is the one that fires). -/
def hexy_c7_init_cfg : hexy_t :=
  { hexy_zero with
    init := true
    base := 16
    group := 1 }

/-- CLAIM C7 (amended).  A dump on a not-yet-initialized configuration
with base 37 fails validation and returns an error before any byte is
read or written (the result is empty and independent of the input).
A not-yet-initialized configuration with columns = 0 treats 0 as
"unset": columns defaults to 16 and the dump behaves exactly as with
columns = 16, with no error.  Columns = 0 fails validation only when
the initialized flag is already set. -/
theorem hexy_claim_c7_amended :
    (∀ input : List Nat,
      hexy { hexy_zero with base := 37 } input = ([], .configError)) ∧
    (∀ input : List Nat,
      hexy hexy_zero input = hexy { hexy_zero with ncols := 16 } input) ∧
    (hexy_config_default hexy_c7_init_cfg).snd =
      some (.validateFailed .badNcols) := by
  refine ⟨?_, ?_, by decide⟩
  · intro input
    exact hexy_config_error _ input .defaultFailed (by decide)
  · intro input
    unfold hexy
    rw [show hexy_config_default hexy_zero =
      hexy_config_default { hexy_zero with ncols := 16 } from by decide]

/-! ## Claims about the byte-stream abstraction -/

/-- A fresh binding of the empty in-memory buffer (capacity 0) on both
sides: the first pull already fails. -/
def hexy_c8_io : hexy_io_t hexy_buffer_t hexy_buffer_t :=
  { get := hexy_buffer_get, put := hexy_buffer_put,
    in_st := ⟨[], 0, 0⟩, out_st := ⟨[], 0, 0⟩,
    read := 0, wrote := 0, error := false, get_calls := 0, put_calls := 0 }

/-- CLAIM C8 (counterexample).  A pull error is NOT sticky: on the
empty-buffer binding the first pull reports an error (negative), yet
the error flag stays clear and a second pull invokes the underlying
get callback again (two underlying invocations, not one). -/
theorem hexy_claim_c8_counterexample :
    (hexy_get hexy_c8_io).snd < 0 ∧
    (hexy_get hexy_c8_io).fst.error = false ∧
    (hexy_get (hexy_get hexy_c8_io).fst).fst.get_calls = 2 := by
  refine ⟨by decide, rfl, rfl⟩

/-- CLAIM C8 (amended).  Only the recorded sticky error flag
short-circuits, and only `hexy_put` sets it: with the flag set, every
subsequent pull or push (any sequence) immediately returns the error
without invoking the underlying callbacks or changing any state; and
a push whose underlying `put` fails sets the flag.  A failed pull does
not set the flag (see the counterexample). -/
theorem hexy_claim_c8_amended {σ τ : Type} (io : hexy_io_t σ τ) (ch : Int)
    (ops : List hexy_op) :
    (io.error = true →
      hexy_get io = (io, HEXY_ELINE) ∧
      hexy_put io ch = (io, HEXY_ELINE) ∧
      hexy_run_ops io ops = (io, ops.map fun _ => HEXY_ELINE)) ∧
    (io.error = false → (io.put io.out_st ch).snd < 0 →
      (hexy_put io ch).fst.error = true) := by
  constructor
  · intro he
    have hget : hexy_get io = (io, HEXY_ELINE) := by
      unfold hexy_get
      rw [if_pos he]
    have hput : ∀ c : Int, hexy_put io c = (io, HEXY_ELINE) := by
      intro c
      unfold hexy_put
      rw [if_pos he]
    refine ⟨hget, hput ch, ?_⟩
    induction ops with
    | nil => rfl
    | cons op rest ih =>
      cases op with
      | pull =>
        unfold hexy_run_ops
        simp only [hget, ih, List.map_cons]
      | push c =>
        unfold hexy_run_ops
        simp only [hput c, ih, List.map_cons]
  · intro he hf
    unfold hexy_put
    rw [if_neg (by simp [he])]
    simpa using hf

/-- Witness for C8 on a concrete errored binding and a concrete
failing push. -/
theorem hexy_claim_c8_witness :
    (hexy_get { hexy_c8_io with error := true } =
      ({ hexy_c8_io with error := true }, HEXY_ELINE) ∧
     hexy_put { hexy_c8_io with error := true } 65 =
      ({ hexy_c8_io with error := true }, HEXY_ELINE) ∧
     hexy_run_ops { hexy_c8_io with error := true }
        [hexy_op.pull, hexy_op.push 66] =
      ({ hexy_c8_io with error := true },
       ([hexy_op.pull, hexy_op.push 66]).map fun _ => HEXY_ELINE)) ∧
    (hexy_put hexy_c8_io 65).fst.error = true :=
  ⟨(hexy_claim_c8_amended { hexy_c8_io with error := true } 65
      [hexy_op.pull, hexy_op.push 66]).1 rfl,
   (hexy_claim_c8_amended hexy_c8_io 65 [hexy_op.pull, hexy_op.push 66]).2
     rfl (by decide)⟩

/-! ## Formatting never fails under a valid base -/

theorem hexy_unum_to_string_isSome (u base : Nat) (up : Bool)
    (hb : hexy_is_valid_base base = true) :
    (hexy_unum_to_string u base up).isSome := by
  simp [hexy_unum_to_string, hb]

theorem hexy_print_number_isSome (u base : Nat) (cc : Int) (cr : Char)
    (la up : Bool) (hb : hexy_is_valid_base base = true) :
    (hexy_print_number u base cc cr la up).isSome := by
  unfold hexy_print_number
  rcases hu : hexy_unum_to_string u base up with - | digs
  · exact absurd (hexy_unum_to_string_isSome u base up hb) (by simp only [hu]; simp)
  · simp

theorem hexy_aligned_print_number_isSome (u base maxv : Nat) (lz : Int)
    (lc : Char) (up : Bool) (hb : hexy_is_valid_base base = true) :
    (hexy_aligned_print_number u base maxv lz lc up).isSome := by
  unfold hexy_aligned_print_number
  exact hexy_print_number_isSome u base _ lc true up hb

theorem hexy_byte_slots_isSome (base : Nat) (up : Bool) (ba : Nat)
    (buf : List Nat) (hb : hexy_is_valid_base base = true) :
    ∀ (count idx : Nat), (hexy_byte_slots base up ba buf idx count).isSome := by
  intro count
  induction count with
  | zero => intro idx; simp [hexy_byte_slots]
  | succ n ih =>
    intro idx
    unfold hexy_byte_slots
    by_cases hle : buf.length ≤ idx
    · simp [hle]
    · rw [if_neg hle]
      rcases ha : hexy_aligned_print_number (buf.getD idx 0) base 255 ba '0' up
        with - | s
      · exact absurd
          (hexy_aligned_print_number_isSome (buf.getD idx 0) base 255 ba '0'
            up hb) (by simp only [ha]; simp)
      · rcases hr : hexy_byte_slots base up ba buf (idx + 1) n with - | rest
        · exact absurd (ih (idx + 1)) (by simp only [hr]; simp)
        · simp only [ha, hr]; simp

theorem hexy_byte_columns_isSome (base : Nat) (up : Bool) (ba g : Nat)
    (sep : List Char) (buf : List Nat) (hb : hexy_is_valid_base base = true) :
    ∀ (count i : Nat),
    (hexy_byte_columns base up ba g sep buf i count).isSome := by
  intro count
  induction count with
  | zero => intro i; simp [hexy_byte_columns]
  | succ n ih =>
    intro i
    unfold hexy_byte_columns
    rcases hc : hexy_byte_slots base up ba buf (i * g) g with - | cells
    · exact absurd (hexy_byte_slots_isSome base up ba buf hb g (i * g))
        (by simp only [hc]; simp)
    · rcases hr : hexy_byte_columns base up ba g sep buf (i + 1) n with - | rest
      · exact absurd (ih (i + 1)) (by simp only [hr]; simp)
      · simp only [hc, hr]; simp

theorem hexy_print_address_isSome (h : hexy_t) (addr : Nat)
    (hok : h.addresses_off = true ∨
      hexy_is_valid_base h.abase.toNat = true) :
    (hexy_print_address h addr).isSome := by
  unfold hexy_print_address
  by_cases hoff : h.addresses_off
  · simp [hoff]
  · rw [if_neg hoff]
    have hab : hexy_is_valid_base h.abase.toNat = true := by
      rcases hok with hh | hh
      · exact absurd hh hoff
      · exact hh
    rcases ha : hexy_aligned_print_number addr h.abase.toNat 65535 4 ' '
      h.uppercase_on with - | s
    · exact absurd
        (hexy_aligned_print_number_isSome addr h.abase.toNat 65535 4 ' '
          h.uppercase_on hab) (by simp only [ha]; simp)
    · simp only [ha]; simp

theorem hexy_format_line_isSome (h : hexy_t) (ba : Nat) (chunk : List Nat)
    (addr : Nat) (hb : hexy_is_valid_base h.base.toNat = true)
    (hok : h.addresses_off = true ∨
      hexy_is_valid_base h.abase.toNat = true) :
    (hexy_format_line h ba chunk addr).isSome := by
  unfold hexy_format_line
  rcases hadr : hexy_print_address h addr with - | adr
  · exact absurd (hexy_print_address_isSome h addr hok) (by simp only [hadr]; simp)
  · rcases hby : hexy_byte_columns h.base.toNat h.uppercase_on ba h.group.toNat
      (hexy_sep h.sep_byt)
      (if h.rev_grp_on then hexy_rev_groups h.group.toNat chunk else chunk)
      0 h.ncols.toNat with - | bytes
    · exact absurd (hexy_byte_columns_isSome h.base.toNat h.uppercase_on ba
        h.group.toNat (hexy_sep h.sep_byt)
        (if h.rev_grp_on then hexy_rev_groups h.group.toNat chunk else chunk)
        hb h.ncols.toNat 0)
        (by simp only [hby]; simp)
    · simp only [hadr, hby]; simp

/-- CLAIM C6.  After each formatted line the driver adds the number of
bytes in the line to the 64-bit address and fails exactly when the sum
wraps (first conjunct, the overflow test of line 681); consequently,
seeding the address at the maximum 64-bit value and dumping any
non-empty input (under a configuration that defaults successfully and
whose address base is valid or suppressed) emits the line that
triggered the overflow and then stops with the overflow error, with no
further output. -/
theorem hexy_claim_c6 (h : hexy_t) (input : List Nat)
    (hc : (hexy_config_default h).snd = none)
    (habase : (hexy_config_default h).fst.addresses_off = true ∨
      hexy_is_valid_base (hexy_config_default h).fst.abase.toNat = true)
    (haddr : h.address = 2 ^ 64 - 1)
    (hinput : input ≠ []) :
    (∀ a u : Nat, a < HEXY_U64 → 1 ≤ u → u ≤ 256 →
      (hexy_addr_overflow a u = true ↔ HEXY_U64 ≤ a + u)) ∧
    hexy h input =
      ((hexy_format_line (hexy_config_default h).fst
          (hexy_unsigned_integer_logarithm 255
            (hexy_config_default h).fst.base.toNat)
          (input.take ((hexy_config_default h).fst.ncols.toNat *
            (hexy_config_default h).fst.group.toNat))
          (2 ^ 64 - 1)).getD [],
       .overflowError) := by
  have h64 : HEXY_U64 = 18446744073709551616 := by norm_num [HEXY_U64]
  constructor
  · intro a u ha hu1 hu2
    simp only [hexy_addr_overflow, h64, decide_eq_true_eq]
    rw [h64] at ha
    omega
  · rcases hd : hexy_config_default h with ⟨c2, r⟩
    have hr : r = none := by
      have := hc
      rw [hd] at this
      exact this
    subst hr
    have hval : hexy_validate c2 = none := by
      have h2 := hexy_config_default_ok h hc
      rw [hd] at h2
      exact h2
    obtain ⟨-, hbase, hn1, hn2, -, hg1, hg2⟩ := hexy_validate_ok _ hval
    have haddr2 : c2.address = 2 ^ 64 - 1 := by
      have := hexy_config_default_address h
      rw [hd] at this
      simp only at this
      rw [this, haddr]
    have habase2 : c2.addresses_off = true ∨
        hexy_is_valid_base c2.abase.toNat = true := by
      rw [hd] at habase
      exact habase
    set len := c2.ncols.toNat * c2.group.toNat with hlendef
    have hlen1 : 1 ≤ len := Nat.mul_pos (by omega) (by omega)
    have hlen256 : len ≤ 256 := by
      have a1 : c2.ncols.toNat ≤ 32 := by omega
      have a2 : c2.group.toNat ≤ 8 := by omega
      calc len ≤ 32 * 8 := Nat.mul_le_mul a1 a2
      _ = 256 := by norm_num
    rcases hinp : input with - | ⟨b0, tl⟩
    · exact absurd hinp hinput
    · rw [← hinp]
      have hinlen : 1 ≤ input.length := by
        rw [hinp]
        simp
      have hchunk1 : 1 ≤ (input.take len).length := by
        simp only [List.length_take]
        omega
      have hchunk256 : (input.take len).length ≤ 256 := by
        simp only [List.length_take]
        omega
      obtain ⟨line, hline⟩ := Option.isSome_iff_exists.mp
        (hexy_format_line_isSome c2
          (hexy_unsigned_integer_logarithm 255 c2.base.toNat)
          (input.take len) (2 ^ 64 - 1) hbase habase2)
      have hov : hexy_addr_overflow (2 ^ 64 - 1) (input.take len).length
          = true := by
        simp only [hexy_addr_overflow, HEXY_U64, decide_eq_true_eq]
        omega
      unfold hexy
      rw [hd]
      simp only
      rw [haddr2]
      rcases hfuel : input.length with - | m
      · omega
      · rw [hexy_loop]
        rw [if_neg (by omega), if_neg (by
          simp only [List.isEmpty_iff]
          exact hinput)]
        simp only [← hlendef, hline, hov, if_true]
        simp

/-- The default configuration with the address counter seeded at the
maximum 64-bit value. -/
def hexy_c6w_cfg : hexy_t :=
  { hexy_zero with address := 2 ^ 64 - 1 }

/-- Witness for C6: dumping one byte from the maximal address emits
the line and stops with the overflow error. -/
theorem hexy_claim_c6_witness :
    hexy hexy_c6w_cfg [0] =
      ((hexy_format_line (hexy_config_default hexy_c6w_cfg).fst
          (hexy_unsigned_integer_logarithm 255
            (hexy_config_default hexy_c6w_cfg).fst.base.toNat)
          ([0].take ((hexy_config_default hexy_c6w_cfg).fst.ncols.toNat *
            (hexy_config_default hexy_c6w_cfg).fst.group.toNat))
          (2 ^ 64 - 1)).getD [],
       .overflowError) :=
  (hexy_claim_c6 hexy_c6w_cfg [0] (by decide) (by decide) rfl
    (by decide)).2

/-- Every chunk the reading phase collects has at most `len` bytes. -/
theorem hexy_line_chunks_length (len : Nat) :
    ∀ (fuel : Nat) (inp : List Nat) (c : List Nat),
    c ∈ hexy_line_chunks len fuel inp → c.length ≤ len := by
  intro fuel
  induction fuel with
  | zero =>
    intro inp c hc
    simp [hexy_line_chunks] at hc
  | succ n ih =>
    intro inp c hc
    unfold hexy_line_chunks at hc
    split_ifs at hc with h0 h1 h2
    · simp at hc
    · simp at hc
    · simp only [List.mem_singleton] at hc
      subst hc
      simp [List.length_take]
    · rcases List.mem_cons.mp hc with rfl | htail
      · simp [List.length_take]
      · exact ih _ c htail

/-- CLAIM C10.  Under a validated configuration the line buffer sizing
is safe: the per-line byte count `ncols * group` is at most the
256-byte buffer; every chunk the dump loop reads fits in it (so
`buf_used <= ncols * group <= 256` in every reached state, the
`missing` count of the character view is non-negative, and the
reversal pass touches only `(buf_used / group) * group <= buf_used`
bytes); and every byte-slot index `i * group + j` with `i < ncols`,
`j < group` is within the 256-byte buffer, so the in-loop assertions
cannot fail. -/
theorem hexy_claim_c10 (h : hexy_t) (input : List Nat)
    (hv : hexy_validate h = none) :
    h.ncols.toNat * h.group.toNat ≤ 256 ∧
    (∀ chunk ∈ hexy_line_chunks (h.ncols.toNat * h.group.toNat)
        (input.length + 1) input,
      chunk.length ≤ h.ncols.toNat * h.group.toNat ∧
      (chunk.length / h.group.toNat) * h.group.toNat ≤ chunk.length) ∧
    (∀ i j : Nat, i < h.ncols.toNat → j < h.group.toNat →
      i * h.group.toNat + j < 256) := by
  obtain ⟨-, -, hn1, hn2, -, hg1, hg2⟩ := hexy_validate_ok _ hv
  have hN : h.ncols.toNat ≤ 32 := by omega
  have hG : h.group.toNat ≤ 8 := by omega
  have hprod : h.ncols.toNat * h.group.toNat ≤ 256 := by
    calc h.ncols.toNat * h.group.toNat ≤ 32 * 8 := Nat.mul_le_mul hN hG
    _ = 256 := by norm_num
  refine ⟨hprod, ?_, ?_⟩
  · intro chunk hchunk
    exact ⟨hexy_line_chunks_length _ _ input chunk hchunk,
      Nat.div_mul_le_self _ _⟩
  · intro i j hi hj
    calc i * h.group.toNat + j < i * h.group.toNat + h.group.toNat := by omega
    _ = (i + 1) * h.group.toNat := (Nat.succ_mul i h.group.toNat).symm
    _ ≤ h.ncols.toNat * h.group.toNat := Nat.mul_le_mul_right _ (by omega)
    _ ≤ 256 := hprod

/-- Witness for C10 on a validated 16-column, group-1 configuration
reading three bytes. -/
theorem hexy_claim_c10_witness :
    [1, 2, 3].length ≤ hexy_c9w_cfg.ncols.toNat * hexy_c9w_cfg.group.toNat ∧
    hexy_c9w_cfg.ncols.toNat * hexy_c9w_cfg.group.toNat ≤ 256 :=
  ⟨((hexy_claim_c10 hexy_c9w_cfg [1, 2, 3] (by decide)).2.1 [1, 2, 3]
      (by decide)).1,
   (hexy_claim_c10 hexy_c9w_cfg [1, 2, 3] (by decide)).1⟩
